import Mathlib

/-!
Verification of `include/libtorrent/buffer.hpp`: a move-only, heap-backed
byte buffer whose capacity may exceed the requested size, together with its
`interval` views.

The embedding models `std::size_t` as `Nat` with explicit `% 2^64` where the
C arithmetic can wrap, pointers as `Option Nat` (with `none` for `nullptr`),
the platform-dependent allocator introspection (`malloc_usable_size`,
`_msize`, `malloc_size`, or the portable fallback) as a `platform` record,
and `malloc` failure as an `Except` error.  Assertion preconditions
(`TORRENT_ASSERT`) are modelled as explicit `Prop`-valued preconditions.
-/

namespace LibtorrentBuffer

/-- `std::size_t` modulus: the source manipulates 64-bit unsigned sizes. -/
def size_t_mod : Nat := 2 ^ 64

/-- Source `round_up8` (buffer.hpp line 56): `(v + 7) & (~std::size_t(0x7))`.
The complement `~0x7` on 64-bit `size_t` is `2^64 - 8`, and `v + 7` wraps
modulo `2^64`. -/
def round_up8 (v : Nat) : Nat :=
  ((v + 7) % size_t_mod) &&& (size_t_mod - 8)

/-- The platform-dependent allocator behaviour of buffer.hpp lines 154-164:
`usable s` is the actual usable size of a block obtained by `malloc s` (what
`malloc_usable_size` / `_msize` / `malloc_size` report); `introspect` tells
whether such introspection is available (`__GLIBC__` / `_MSC_VER` /
`TORRENT_BSD`) or the `#else` fallback `m_size = size` is compiled. -/
structure platform where
  usable : Nat → Nat
  introspect : Bool

/-- A platform where the allocator is honest about usable sizes: a block
obtained by `malloc s` has at least `s` usable bytes. -/
def platform.consistent (p : platform) : Prop :=
  ∀ s : Nat, s ≤ p.usable s

/-- The portable fallback platform (buffer.hpp lines 162-163): no usable-size
introspection, the allocator grants exactly what was asked. -/
def fallbackPlat : platform := ⟨fun s => s, false⟩

/-- The two data members of `class buffer` (lines 236-238): `m_begin` is a
`char*` (`none` = `nullptr`, `some a` = address `a`) and `m_size` the
capacity; `m_begin` points to an allocation of `m_size` bytes. -/
structure buffer where
  m_begin : Option Nat
  m_size : Nat
  deriving Repr, DecidableEq

/-- `std::size_t size() const { return m_size; }` (line 218). -/
def buffer.size (b : buffer) : Nat := b.m_size

/-- `bool empty() const { return m_size == 0; }` (line 220). -/
def buffer.empty (b : buffer) : Bool := b.m_size == 0

/-- Precondition of `operator[]` (lines 221-222): `TORRENT_ASSERT(i < size())`. -/
abbrev buffer.index_pre (b : buffer) (i : Nat) : Prop := i < b.size

/-- `INT32_MAX`, the bound of the constructor assertion (line 138). -/
abbrev int32_max : Nat := 2147483647

/-- Precondition of the sizing constructor (line 138):
`TORRENT_ASSERT(size < std::size_t(std::numeric_limits<std::int32_t>::max()))`. -/
abbrev buffer.ctor_pre (size : Nat) : Prop := size < int32_max

/-- What `std::malloc` may hand back: `none` is a null return (allocation
failure), `some a` a fresh block at address `a`. -/
def malloc_ret := Option Nat

/-- The OOM condition of lines 145-152: `throw std::bad_alloc()` (or
`std::terminate()` under `BOOST_NO_EXCEPTIONS`). -/
inductive alloc_failure where
  | bad_alloc
  deriving Repr, DecidableEq

/-- The successfully constructed buffer once `malloc(round_up8 size)` has
returned address `a` (lines 144-164, `size > 0`): with introspection the
capacity is the allocator-reported usable size of the block, otherwise the
rounded request. -/
def buffer.mk_alloc (p : platform) (a : Nat) (size : Nat) : buffer :=
  ⟨some a, if p.introspect then p.usable (round_up8 size) else round_up8 size⟩

/-- The sizing constructor `buffer(std::size_t size)` (lines 136-165).
`mret` is the allocator's response to the (rounded) request: `size == 0`
returns the empty buffer without calling `malloc`; a null `malloc` return
throws `bad_alloc`. -/
def buffer_ctor (p : platform) (mret : Option Nat) (size : Nat) :
    Except alloc_failure buffer :=
  if size = 0 then .ok ⟨none, 0⟩
  else
    match mret with
    | none => .error .bad_alloc
    | some a => .ok (buffer.mk_alloc p a size)

/-- Uninitialized contents of a freshly malloc'd block of `cap` bytes
(`none` = indeterminate byte). -/
def fresh_block (cap : Nat) : List (Option Nat) :=
  List.replicate cap none

/-- `memcpy(dst, src, n)` into the start of a block: the first `n` bytes
become `src`'s first `n` bytes, the rest of the block is untouched. -/
def memcpy_into (dst : List (Option Nat)) (src : List Nat) (n : Nat) :
    List (Option Nat) :=
  (src.take n).map some ++ dst.drop n

/-- The real capacity of the block backing a buffer built with request
`size`: `malloc(round_up8 size)` yields a block whose true usable size is
`usable (round_up8 size)`; no block at all for `size == 0`. -/
def block_cap (p : platform) (size : Nat) : Nat :=
  if size = 0 then 0 else p.usable (round_up8 size)

/-- Precondition of the initializing constructor (line 172):
`TORRENT_ASSERT(initialize.size() <= size)`; `ini` stands for the source's
`initialize` parameter, which is a Lean keyword. -/
abbrev buffer.init_ctor_pre (size : Nat) (ini : List Nat) : Prop :=
  ini.length ≤ size

/-- The initializing constructor
`buffer(std::size_t size, aux::array_view<char const> initialize)`
(lines 169-177): delegates to `buffer(size)`, then for a non-empty
initializer copies `min(initialize.size(), size)` bytes into the block's
start.  Returns the buffer and the block's contents. -/
def buffer_ctor_init (p : platform) (mret : Option Nat) (size : Nat)
    (ini : List Nat) :
    Except alloc_failure (buffer × List (Option Nat)) :=
  match buffer_ctor p mret size with
  | .error e => .error e
  | .ok b =>
    let block := fresh_block (block_cap p size)
    if 0 < ini.length then
      .ok (b, memcpy_into block ini (min ini.length size))
    else
      .ok (b, block)

/-- `struct interval` (lines 71-98): a begin/end pair of `char*` addresses.
`end` is a Lean keyword, hence the field name `endp`. -/
structure interval where
  begin : Nat
  endp : Nat
  deriving Repr, DecidableEq

/-- Address of a possibly null `char*` (`nullptr` is address 0; the machine
below hands out addresses from 1). -/
def addr : Option Nat → Nat
  | none => 0
  | some a => a

/-- `buffer::data()` (lines 208-209): `interval(m_begin, m_begin + m_size)`. -/
def buffer.data (b : buffer) : interval :=
  ⟨addr b.m_begin, addr b.m_begin + b.m_size⟩

/-- Precondition of `interval::operator[]` (line 85):
`TORRENT_ASSERT(begin + index < end)`. -/
abbrev interval.index_pre (iv : interval) (index : Nat) : Prop :=
  iv.begin + index < iv.endp

/-- Preconditions of `interval::left()` (lines 91-92):
`TORRENT_ASSERT(end >= begin)` and
`TORRENT_ASSERT(end - begin < std::numeric_limits<int>::max())`. -/
abbrev interval.left_pre (iv : interval) : Prop :=
  iv.begin ≤ iv.endp ∧ iv.endp - iv.begin < int32_max

/-- `interval::left()` (line 93): `int(end - begin)`. -/
def interval.left (iv : interval) : Nat :=
  iv.endp - iv.begin

/-! ### Heap and object model

Move-assignment, `swap` and the destructor concern object identity and the
balance of `malloc`/`free` calls, so they are modelled as a small machine: a
heap recording the live allocations (address and true usable capacity) plus
`malloc`/`free` call counters, and a list of buffer objects addressed by
index. -/

/-- The allocator's state: `next` is the next fresh address (addresses start
at 1 so that 0 can stand for `nullptr`), `live` the live blocks as
(address, usable capacity) pairs, and `allocCount`/`freeCount` the number of
`malloc` calls and of `free` calls on a non-null pointer. -/
structure heap where
  next : Nat
  live : List (Nat × Nat)
  allocCount : Nat
  freeCount : Nat
  deriving Repr, DecidableEq

/-- A successful `malloc size`: hands out the fresh address and records a
live block whose true usable capacity is `p.usable size`. -/
def malloc_step (p : platform) (h : heap) (size : Nat) : heap × Nat :=
  ({ next := h.next + 1
   , live := (h.next, p.usable size) :: h.live
   , allocCount := h.allocCount + 1
   , freeCount := h.freeCount }, h.next)

/-- `std::free` on a possibly null pointer: `free(nullptr)` is a no-op;
otherwise the block at that address dies and the free counter ticks. -/
def free_step (h : heap) : Option Nat → heap
  | none => h
  | some a =>
    { h with live := h.live.filter (fun e => e.1 ≠ a)
           , freeCount := h.freeCount + 1 }

/-- A machine state: the heap plus the buffer objects currently alive,
identified by their index. -/
structure machine where
  hp : heap
  bufs : List buffer
  deriving Repr, DecidableEq

/-- The start state: empty heap (no allocations yet), no buffers. -/
def machine.init : machine := ⟨⟨1, [], 0, 0⟩, []⟩

/-- The operations of the public contract that create, transfer or destroy
ownership.  Indices refer to positions in `machine.bufs`; an out-of-range
index makes the operation a no-op. -/
inductive op where
  | alloc (size : Nat)
  | allocFrom (size : Nat) (ini : List Nat)
  | moveCtor (i : Nat)
  | moveAssign (dst src : Nat)
  | swapOp (i j : Nat)
  | destroy (i : Nat)
  deriving Repr, DecidableEq

/-- The sizing constructor acting on the machine (lines 136-165 with a
succeeding `malloc`): `size == 0` allocates nothing; otherwise
`malloc(round_up8 size)` is called and the new buffer's capacity is set per
`buffer.mk_alloc`. -/
def alloc_step (p : platform) (st : machine) (size : Nat) : machine :=
  if size = 0 then
    { st with bufs := st.bufs ++ [⟨none, 0⟩] }
  else
    let r := malloc_step p st.hp (round_up8 size)
    { hp := r.1, bufs := st.bufs ++ [buffer.mk_alloc p r.2 size] }

/-- One operation of the machine, mirroring the member functions:
`moveCtor i` runs `buffer(buffer&& b)` (lines 181-187) with `b = bufs[i]`,
appending the new object; `moveAssign dst src` runs
`bufs[dst] = std::move(bufs[src])` (lines 189-198) including the
`&b == this` self-assignment check; `swapOp` runs `swap` (lines 229-234);
`destroy i` runs the destructor `std::free(m_begin)` (line 202) and removes
the object.  `allocFrom` touches the heap exactly as `alloc` does (the
delegating constructor of lines 169-177 only adds a `memcpy`). -/
def mstep (p : platform) (st : machine) : op → machine
  | .alloc size => alloc_step p st size
  | .allocFrom size _ini => alloc_step p st size
  | .moveCtor i =>
    match st.bufs[i]? with
    | none => st
    | some b =>
      { st with bufs := (st.bufs.set i ⟨none, 0⟩) ++ [⟨b.m_begin, b.m_size⟩] }
  | .moveAssign dst src =>
    if dst = src then st
    else
      match st.bufs[dst]?, st.bufs[src]? with
      | some d, some s =>
        { hp := free_step st.hp d.m_begin
        , bufs := (st.bufs.set dst ⟨s.m_begin, s.m_size⟩).set src ⟨none, 0⟩ }
      | _, _ => st
  | .swapOp i j =>
    match st.bufs[i]?, st.bufs[j]? with
    | some bi, some bj => { st with bufs := (st.bufs.set i bj).set j bi }
    | _, _ => st
  | .destroy i =>
    match st.bufs[i]? with
    | none => st
    | some b => { hp := free_step st.hp b.m_begin, bufs := st.bufs.eraseIdx i }

/-- Run a whole sequence of operations from a state. -/
def mrun (p : platform) (st : machine) (ops : List op) : machine :=
  ops.foldl (mstep p) st

/-! ### Arithmetic characterization of `round_up8` -/

/-- Clearing the low three bits of a 64-bit value rounds it down to a
multiple of 8. -/
theorem land_mask64 (x : Nat) (hx : x < 2 ^ 64) :
    x &&& (2 ^ 64 - 8) = 8 * (x / 8) := by
  have hmask : (2 : Nat) ^ 64 - 8 = (2 ^ 61 - 1) * 2 ^ 3 := by norm_num
  apply Nat.eq_of_testBit_eq
  intro i
  have h8 : (8 : Nat) = 2 ^ 3 := by norm_num
  rw [Nat.testBit_land, hmask, h8]
  rw [show (2 ^ 61 - 1) * 2 ^ 3 = (2 ^ 61 - 1) <<< 3 from (Nat.shiftLeft_eq _ _).symm]
  rw [show 2 ^ 3 * (x / 2 ^ 3) = (x >>> 3) <<< 3 by
    rw [Nat.shiftLeft_eq, Nat.shiftRight_eq_div_pow]; ring]
  rw [Nat.testBit_shiftLeft, Nat.testBit_shiftLeft]
  rw [Nat.testBit_shiftRight, Nat.testBit_two_pow_sub_one]
  rcases lt_or_le i 3 with h3 | h3
  · simp [Nat.not_le.mpr h3]
  · rw [show 3 + (i - 3) = i by omega]
    rcases lt_or_le i 64 with h64 | h64
    · simp [h3, show i - 3 < 61 by omega, Bool.and_comm]
    · have hxi : x.testBit i = false :=
        Nat.testBit_lt_two_pow (lt_of_lt_of_le hx (Nat.pow_le_pow_right (by norm_num) h64))
      simp [hxi]

/-- For requests small enough that `v + 7` does not wrap, `round_up8` is
ordinary round-up-to-a-multiple-of-8. -/
theorem round_up8_eq (v : Nat) (h : v + 7 < 2 ^ 64) :
    round_up8 v = 8 * ((v + 7) / 8) := by
  unfold round_up8 size_t_mod
  rw [Nat.mod_eq_of_lt h]
  exact land_mask64 _ h

/-- `round_up8` never shrinks a small request. -/
theorem round_up8_ge (v : Nat) (h : v + 7 < 2 ^ 64) : v ≤ round_up8 v := by
  rw [round_up8_eq v h]
  have := Nat.div_add_mod (v + 7) 8
  have hm : (v + 7) % 8 < 8 := Nat.mod_lt _ (by norm_num)
  omega

/-- `round_up8` yields a multiple of 8. -/
theorem round_up8_dvd (v : Nat) (h : v + 7 < 2 ^ 64) : 8 ∣ round_up8 v := by
  rw [round_up8_eq v h]
  exact Dvd.intro _ rfl

/-! ### The ownership invariant and its preservation -/

/-- Preconditions of the operations, as documented by the source's
assertions: a construction request is below `INT32_MAX` (line 138) and an
initializer no longer than the request (line 172). -/
def op.wf : op → Prop
  | .alloc size => size < int32_max
  | .allocFrom size ini => size < int32_max ∧ ini.length ≤ size
  | _ => True

/-- The exclusive-ownership invariant of a machine state:
the `malloc` count balances the `free` count against the live blocks; live
addresses are distinct and below the allocation cursor; every buffer is
null exactly when its capacity is zero; a non-null buffer points at a live
block of at least its capacity; no two distinct buffers share a non-null
pointer (sole ownership); and every live block is owned by some buffer. -/
def Inv (st : machine) : Prop :=
  st.hp.allocCount = st.hp.freeCount + st.hp.live.length ∧
  (st.hp.live.map Prod.fst).Nodup ∧
  (∀ e ∈ st.hp.live, e.1 < st.hp.next) ∧
  (∀ (i : Nat) (b : buffer), st.bufs[i]? = some b →
    (b.m_begin = none ↔ b.m_size = 0)) ∧
  (∀ (i : Nat) (b : buffer) (a : Nat), st.bufs[i]? = some b →
    b.m_begin = some a → ∃ e ∈ st.hp.live, e.1 = a ∧ b.m_size ≤ e.2) ∧
  (∀ (i j : Nat) (bi bj : buffer), i ≠ j → st.bufs[i]? = some bi →
    st.bufs[j]? = some bj → bi.m_begin = none ∨ bi.m_begin ≠ bj.m_begin) ∧
  (∀ e ∈ st.hp.live, ∃ (j : Nat) (bj : buffer),
    st.bufs[j]? = some bj ∧ bj.m_begin = some e.1)

/-- Freeing the one live block at address `a` shrinks the live list by
exactly one entry. -/
theorem filter_fst_ne_length {l : List (Nat × Nat)} {a cap : Nat}
    (hmem : (a, cap) ∈ l) (hnd : (l.map Prod.fst).Nodup) :
    (l.filter (fun e => e.1 ≠ a)).length + 1 = l.length := by
  induction l with
  | nil => cases hmem
  | cons e l ih =>
    rw [List.map_cons, List.nodup_cons] at hnd
    by_cases hea : e.1 = a
    · have hfl : List.filter (fun e : Nat × Nat => decide (e.1 ≠ a)) l = l := by
        rw [List.filter_eq_self]
        intro x hx
        simp only [decide_eq_true_eq]
        intro hxa
        apply hnd.1
        rw [hea, ← hxa]
        exact List.mem_map_of_mem Prod.fst hx
      simp [List.filter_cons, hea, hfl]
      intro x y hxy hxa
      apply hnd.1
      rw [hea, ← hxa]
      exact List.mem_map_of_mem Prod.fst hxy
    · have hmem' : (a, cap) ∈ l := by
        rcases List.mem_cons.mp hmem with h | h
        · exact absurd (by rw [← h]) hea
        · exact h
      simp only [List.filter_cons, decide_eq_true_eq, if_pos hea, List.length_cons]
      rw [← ih hmem' hnd.2]

/-- The initial machine state satisfies the invariant. -/
theorem Inv_init : Inv machine.init := by
  refine ⟨rfl, List.nodup_nil, ?_, ?_, ?_, ?_, ?_⟩ <;> simp [machine.init]

/-- Indexing into a list with one element appended. -/
theorem getElem?_snoc {α : Type _} (l : List α) (x : α) (i : Nat) :
    (l ++ [x])[i]? =
      if i < l.length then l[i]? else if i = l.length then some x else none := by
  rw [List.getElem?_append]
  by_cases h : i < l.length
  · simp [h]
  · rw [if_neg h, if_neg h]
    by_cases h2 : i = l.length
    · subst h2
      simp
    · have h3 : i - l.length ≠ 0 := by omega
      rcases Nat.exists_eq_succ_of_ne_zero h3 with ⟨k, hk⟩
      simp [hk, h2]

/-- A successful lookup means the index is in range. -/
theorem getElem?_lt_length {α : Type _} {l : List α} {i : Nat} {x : α}
    (h : l[i]? = some x) : i < l.length := by
  by_contra hc
  rw [List.getElem?_eq_none (Nat.le_of_not_lt hc)] at h
  cases h

/-- Case split for a successful lookup in a list with one element appended. -/
theorem snoc_cases {α : Type _} {l : List α} {x b : α} {i : Nat}
    (h : (l ++ [x])[i]? = some b) :
    (i < l.length ∧ l[i]? = some b) ∨ (i = l.length ∧ b = x) := by
  rw [getElem?_snoc] at h
  by_cases h1 : i < l.length
  · rw [if_pos h1] at h
    exact Or.inl ⟨h1, h⟩
  · rw [if_neg h1] at h
    by_cases h2 : i = l.length
    · rw [if_pos h2] at h
      cases h
      exact Or.inr ⟨h2, rfl⟩
    · rw [if_neg h2] at h
      cases h

/-- Case split for a successful lookup in a list with one element replaced. -/
theorem set_cases {α : Type _} {l : List α} {x b : α} {i j : Nat}
    (h : (l.set i x)[j]? = some b) :
    (i = j ∧ j < l.length ∧ b = x) ∨ (i ≠ j ∧ l[j]? = some b) := by
  by_cases hij : i = j
  · subst hij
    have hlt : i < l.length := by
      have := getElem?_lt_length h
      rwa [List.length_set] at this
    rw [List.getElem?_set_eq_of_lt _ hlt] at h
    cases h
    exact Or.inl ⟨rfl, hlt, rfl⟩
  · rw [List.getElem?_set_ne hij] at h
    exact Or.inr ⟨hij, h⟩

/-- Lookup below the length is unchanged by appending. -/
theorem snoc_get_lt {α : Type _} {l : List α} {x b : α} {j : Nat}
    (h : l[j]? = some b) : (l ++ [x])[j]? = some b := by
  rw [getElem?_snoc, if_pos (getElem?_lt_length h)]
  exact h

/-- Lookup at another index is unchanged by `set`. -/
theorem set_get_ne {α : Type _} {l : List α} {x b : α} {i j : Nat}
    (hij : i ≠ j) (h : l[j]? = some b) : (l.set i x)[j]? = some b := by
  rw [List.getElem?_set_ne hij]
  exact h

/-- Case split for a successful lookup in a list with index `i` removed. -/
theorem eraseIdx_cases {α : Type _} {l : List α} {i j : Nat} {b : α}
    (h : (l.eraseIdx i)[j]? = some b) :
    (j < i ∧ l[j]? = some b) ∨ (i ≤ j ∧ l[j + 1]? = some b) := by
  rw [List.getElem?_eraseIdx] at h
  by_cases h1 : j < i
  · rw [if_pos h1] at h
    exact Or.inl ⟨h1, h⟩
  · rw [if_neg h1] at h
    exact Or.inr ⟨Nat.le_of_not_lt h1, h⟩

/-- A surviving index of `eraseIdx`: lookups below the removed index are
unchanged, lookups above shift down by one. -/
theorem eraseIdx_get {α : Type _} {l : List α} {i j : Nat} {b : α}
    (hij : j ≠ i) (h : l[j]? = some b) :
    (l.eraseIdx i)[if j < i then j else j - 1]? = some b := by
  by_cases h1 : j < i
  · rw [if_pos h1, List.getElem?_eraseIdx, if_pos h1]
    exact h
  · rw [if_neg h1, List.getElem?_eraseIdx,
      if_neg (show ¬ j - 1 < i by omega), show j - 1 + 1 = j from by omega]
    exact h

/-- Small requests cannot make `v + 7` wrap around `size_t`. -/
theorem ctor_pre_no_wrap {size : Nat} (h : size < int32_max) :
    size + 7 < 2 ^ 64 := by
  have : int32_max + 7 < 2 ^ 64 := by norm_num [int32_max]
  omega

/-- The sizing construction preserves the invariant. -/
theorem alloc_step_inv (p : platform) (hcons : p.consistent) (st : machine)
    (size : Nat) (hsz : size < int32_max) (hInv : Inv st) :
    Inv (alloc_step p st size) := by
  obtain ⟨h1, h2, h3, h4, h5, h6, h7⟩ := hInv
  by_cases hs : size = 0
  · subst hs
    refine ⟨h1, h2, h3, ?_, ?_, ?_, ?_⟩
    · intro i b hb
      replace hb : (st.bufs ++ [⟨none, 0⟩])[i]? = some b := hb
      rcases snoc_cases hb with ⟨_, hb'⟩ | ⟨_, rfl⟩
      · exact h4 i b hb'
      · simp
    · intro i b a hb ha
      replace hb : (st.bufs ++ [⟨none, 0⟩])[i]? = some b := hb
      rcases snoc_cases hb with ⟨_, hb'⟩ | ⟨_, rfl⟩
      · exact h5 i b a hb' ha
      · cases ha
    · intro i j bi bj hij hbi hbj
      replace hbi : (st.bufs ++ [⟨none, 0⟩])[i]? = some bi := hbi
      replace hbj : (st.bufs ++ [⟨none, 0⟩])[j]? = some bj := hbj
      rcases snoc_cases hbi with ⟨hi1, hbi'⟩ | ⟨hi1, rfl⟩
      · rcases snoc_cases hbj with ⟨hj1, hbj'⟩ | ⟨hj1, rfl⟩
        · exact h6 i j bi bj hij hbi' hbj'
        · rcases hmb : bi.m_begin with _ | a
          · exact Or.inl rfl
          · exact Or.inr (by simp [hmb])
      · exact Or.inl rfl
    · intro e he
      obtain ⟨j, bj, hj, hja⟩ := h7 e he
      exact ⟨j, bj, snoc_get_lt hj, hja⟩
  · have hpos : 0 < size := Nat.pos_of_ne_zero hs
    have hwrap := ctor_pre_no_wrap hsz
    have hr : size ≤ round_up8 size := round_up8_ge size hwrap
    set r := round_up8 size with hrdef
    set cap := if p.introspect then p.usable r else r with hcapdef
    have hcapl : r ≤ cap := by
      rw [hcapdef]
      split
      · exact hcons r
      · exact le_refl r
    have hcapu : cap ≤ p.usable r := by
      rw [hcapdef]
      split
      · exact le_refl _
      · exact hcons r
    have hcap0 : 0 < cap := lt_of_lt_of_le (lt_of_lt_of_le hpos hr) hcapl
    have hstep : alloc_step p st size =
        { hp := { next := st.hp.next + 1
                , live := (st.hp.next, p.usable r) :: st.hp.live
                , allocCount := st.hp.allocCount + 1
                , freeCount := st.hp.freeCount }
        , bufs := st.bufs ++ [⟨some st.hp.next, cap⟩] } := by
      simp [alloc_step, hs, malloc_step, buffer.mk_alloc, hcapdef]
    rw [hstep]
    refine ⟨?_, ?_, ?_, ?_, ?_, ?_, ?_⟩
    · simp only [List.length_cons]
      exact congrArg (· + 1) h1 |>.trans (by omega)
    · refine List.nodup_cons.mpr ⟨?_, h2⟩
      intro hmem
      obtain ⟨e, he, hefst⟩ := List.mem_map.mp hmem
      exact absurd (hefst ▸ h3 e he) (lt_irrefl _)
    · intro e he
      rcases List.mem_cons.mp he with rfl | he'
      · exact Nat.lt_succ_self _
      · exact Nat.lt_succ_of_lt (h3 e he')
    · intro i b hb
      replace hb : (st.bufs ++ [⟨some st.hp.next, cap⟩])[i]? = some b := hb
      rcases snoc_cases hb with ⟨_, hb'⟩ | ⟨_, rfl⟩
      · exact h4 i b hb'
      · constructor
        · intro hc
          cases hc
        · intro hc
          exact absurd hc.symm (Nat.ne_of_lt hcap0)
    · intro i b a hb ha
      replace hb : (st.bufs ++ [⟨some st.hp.next, cap⟩])[i]? = some b := hb
      rcases snoc_cases hb with ⟨_, hb'⟩ | ⟨_, rfl⟩
      · obtain ⟨e, he, hea, hesz⟩ := h5 i b a hb' ha
        exact ⟨e, List.mem_cons_of_mem _ he, hea, hesz⟩
      · cases ha
        exact ⟨(st.hp.next, p.usable r), List.mem_cons_self _ _, rfl, hcapu⟩
    · intro i j bi bj hij hbi hbj
      replace hbi : (st.bufs ++ [⟨some st.hp.next, cap⟩])[i]? = some bi := hbi
      replace hbj : (st.bufs ++ [⟨some st.hp.next, cap⟩])[j]? = some bj := hbj
      rcases snoc_cases hbi with ⟨hi1, hbi'⟩ | ⟨hi1, rfl⟩
      · rcases snoc_cases hbj with ⟨hj1, hbj'⟩ | ⟨hj1, rfl⟩
        · exact h6 i j bi bj hij hbi' hbj'
        · rcases hmb : bi.m_begin with _ | a
          · exact Or.inl rfl
          · refine Or.inr ?_
            obtain ⟨e, he, hea, _⟩ := h5 i bi a hbi' hmb
            have hlt := h3 e he
            simp only [ne_eq, Option.some.injEq]
            omega
      · rcases snoc_cases hbj with ⟨hj1, hbj'⟩ | ⟨hj1, rfl⟩
        · refine Or.inr ?_
          rcases hmb : bj.m_begin with _ | a
          · simp
          · obtain ⟨e, he, hea, _⟩ := h5 j bj a hbj' hmb
            have hlt := h3 e he
            simp only [ne_eq, Option.some.injEq]
            omega
        · exact absurd (hi1.trans hj1.symm) hij
    · intro e he
      rcases List.mem_cons.mp he with rfl | he'
      · refine ⟨st.bufs.length, ⟨some st.hp.next, cap⟩, ?_, rfl⟩
        exact List.getElem?_concat_length _ _
      · obtain ⟨j, bj, hj, hja⟩ := h7 e he'
        exact ⟨j, bj, snoc_get_lt hj, hja⟩

/-- Move-construction preserves the invariant. -/
theorem moveCtor_inv (p : platform) (st : machine) (i : Nat) (hInv : Inv st) :
    Inv (mstep p st (.moveCtor i)) := by
  obtain ⟨h1, h2, h3, h4, h5, h6, h7⟩ := hInv
  rcases hbi : st.bufs[i]? with _ | b
  · have hstep : mstep p st (.moveCtor i) = st := by simp [mstep, hbi]
    rw [hstep]
    exact ⟨h1, h2, h3, h4, h5, h6, h7⟩
  · have hstep : mstep p st (.moveCtor i) =
        { st with bufs :=
            (st.bufs.set i ⟨none, 0⟩) ++ [⟨b.m_begin, b.m_size⟩] } := by
      simp [mstep, hbi]
    rw [hstep]
    refine ⟨h1, h2, h3, ?_, ?_, ?_, ?_⟩
    · intro k c hc
      replace hc :
          ((st.bufs.set i ⟨none, 0⟩) ++ [⟨b.m_begin, b.m_size⟩])[k]? = some c := hc
      rcases snoc_cases hc with ⟨hk1, hc'⟩ | ⟨hk1, rfl⟩
      · rcases set_cases hc' with ⟨rfl, _, rfl⟩ | ⟨hne, hc''⟩
        · simp
        · exact h4 k c hc''
      · exact h4 i b hbi
    · intro k c a hc ha
      replace hc :
          ((st.bufs.set i ⟨none, 0⟩) ++ [⟨b.m_begin, b.m_size⟩])[k]? = some c := hc
      rcases snoc_cases hc with ⟨hk1, hc'⟩ | ⟨hk1, rfl⟩
      · rcases set_cases hc' with ⟨rfl, _, rfl⟩ | ⟨hne, hc''⟩
        · cases ha
        · exact h5 k c a hc'' ha
      · exact h5 i b a hbi ha
    · intro k l bk bl hkl hbk hbl
      replace hbk :
          ((st.bufs.set i ⟨none, 0⟩) ++ [⟨b.m_begin, b.m_size⟩])[k]? = some bk := hbk
      replace hbl :
          ((st.bufs.set i ⟨none, 0⟩) ++ [⟨b.m_begin, b.m_size⟩])[l]? = some bl := hbl
      rcases snoc_cases hbk with ⟨hk1, hbk'⟩ | ⟨hk1, rfl⟩
      · rcases set_cases hbk' with ⟨hik, _, rfl⟩ | ⟨hik, hbk''⟩
        · exact Or.inl rfl
        · rcases snoc_cases hbl with ⟨hl1, hbl'⟩ | ⟨hl1, rfl⟩
          · rcases set_cases hbl' with ⟨hil, _, rfl⟩ | ⟨hil, hbl''⟩
            · rcases hmb : bk.m_begin with _ | a
              · exact Or.inl rfl
              · exact Or.inr (by simp)
            · exact h6 k l bk bl hkl hbk'' hbl''
          · exact h6 k i bk b (Ne.symm hik) hbk'' hbi
      · rcases snoc_cases hbl with ⟨hl1, hbl'⟩ | ⟨hl1, rfl⟩
        · rcases set_cases hbl' with ⟨hil, _, rfl⟩ | ⟨hil, hbl''⟩
          · rcases hmb : b.m_begin with _ | a
            · exact Or.inl rfl
            · exact Or.inr (by simp)
          · exact h6 i l b bl hil hbi hbl''
        · exact absurd (hk1.trans hl1.symm) hkl
    · intro e he
      obtain ⟨j, bj, hj, hja⟩ := h7 e he
      by_cases hji : j = i
      · subst hji
        rw [hbi] at hj
        cases hj
        exact ⟨(st.bufs.set j ⟨none, 0⟩).length, ⟨b.m_begin, b.m_size⟩,
          List.getElem?_concat_length _ _, hja⟩
      · exact ⟨j, bj, snoc_get_lt (set_get_ne (Ne.symm hji) hj), hja⟩

/-- Move-assignment preserves the invariant. -/
theorem moveAssign_inv (p : platform) (st : machine) (dst src : Nat)
    (hInv : Inv st) : Inv (mstep p st (.moveAssign dst src)) := by
  obtain ⟨h1, h2, h3, h4, h5, h6, h7⟩ := hInv
  by_cases hds : dst = src
  · have hstep : mstep p st (.moveAssign dst src) = st := by simp [mstep, hds]
    rw [hstep]
    exact ⟨h1, h2, h3, h4, h5, h6, h7⟩
  rcases hd : st.bufs[dst]? with _ | d
  · have hstep : mstep p st (.moveAssign dst src) = st := by
      simp [mstep, hds, hd]
    rw [hstep]
    exact ⟨h1, h2, h3, h4, h5, h6, h7⟩
  rcases hsrc : st.bufs[src]? with _ | s
  · have hstep : mstep p st (.moveAssign dst src) = st := by
      simp [mstep, hds, hd, hsrc]
    rw [hstep]
    exact ⟨h1, h2, h3, h4, h5, h6, h7⟩
  have hdlen : dst < st.bufs.length := getElem?_lt_length hd
  have hstep : mstep p st (.moveAssign dst src) =
      { hp := free_step st.hp d.m_begin
      , bufs := (st.bufs.set dst ⟨s.m_begin, s.m_size⟩).set src ⟨none, 0⟩ } := by
    simp [mstep, hds, hd, hsrc]
  rw [hstep]
  rcases hdm : d.m_begin with _ | a
  · refine ⟨h1, h2, h3, ?_, ?_, ?_, ?_⟩
    · intro k c hc
      replace hc :
          ((st.bufs.set dst ⟨s.m_begin, s.m_size⟩).set src ⟨none, 0⟩)[k]? = some c := hc
      rcases set_cases hc with ⟨rfl, _, rfl⟩ | ⟨hks, hc'⟩
      · simp
      · rcases set_cases hc' with ⟨rfl, _, rfl⟩ | ⟨hkd, hc''⟩
        · exact h4 src s hsrc
        · exact h4 k c hc''
    · intro k c a' hc ha
      replace hc :
          ((st.bufs.set dst ⟨s.m_begin, s.m_size⟩).set src ⟨none, 0⟩)[k]? = some c := hc
      rcases set_cases hc with ⟨rfl, _, rfl⟩ | ⟨hks, hc'⟩
      · cases ha
      · rcases set_cases hc' with ⟨rfl, _, rfl⟩ | ⟨hkd, hc''⟩
        · exact h5 src s a' hsrc ha
        · exact h5 k c a' hc'' ha
    · intro k l bk bl hkl hbk hbl
      replace hbk :
          ((st.bufs.set dst ⟨s.m_begin, s.m_size⟩).set src ⟨none, 0⟩)[k]? = some bk := hbk
      replace hbl :
          ((st.bufs.set dst ⟨s.m_begin, s.m_size⟩).set src ⟨none, 0⟩)[l]? = some bl := hbl
      rcases set_cases hbk with ⟨rfl, _, rfl⟩ | ⟨hks, hbk'⟩
      · exact Or.inl rfl
      · rcases set_cases hbl with ⟨rfl, _, rfl⟩ | ⟨hls, hbl'⟩
        · rcases set_cases hbk' with ⟨rfl, _, rfl⟩ | ⟨hkd, hbk''⟩
          · rcases hmb : s.m_begin with _ | a1
            · exact Or.inl rfl
            · exact Or.inr (by simp)
          · rcases hmb : bk.m_begin with _ | a1
            · exact Or.inl rfl
            · exact Or.inr (by simp)
        · rcases set_cases hbk' with ⟨rfl, _, rfl⟩ | ⟨hkd, hbk''⟩
          · rcases set_cases hbl' with ⟨rfl, _, rfl⟩ | ⟨hld, hbl''⟩
            · exact absurd rfl hkl
            · exact h6 src l s bl hls hsrc hbl''
          · rcases set_cases hbl' with ⟨rfl, _, rfl⟩ | ⟨hld, hbl''⟩
            · exact h6 k src bk s (Ne.symm hks) hbk'' hsrc
            · exact h6 k l bk bl hkl hbk'' hbl''
    · intro e he
      obtain ⟨j, bj, hj, hja⟩ := h7 e he
      by_cases hjd : j = dst
      · subst hjd
        rw [hd] at hj
        cases hj
        rw [hdm] at hja
        cases hja
      · by_cases hjs : j = src
        · subst hjs
          rw [hsrc] at hj
          cases hj
          exact ⟨dst, ⟨s.m_begin, s.m_size⟩,
            set_get_ne (Ne.symm hds) (List.getElem?_set_eq_of_lt _ hdlen), hja⟩
        · exact ⟨j, bj,
            set_get_ne (fun h => hjs h.symm) (set_get_ne (fun h => hjd h.symm) hj),
            hja⟩
  · obtain ⟨ea, hea_mem, hea_fst, _⟩ := h5 dst d a hd hdm
    have hmem : (a, ea.2) ∈ st.hp.live := by
      rw [← hea_fst]
      exact hea_mem
    have hlen := filter_fst_ne_length hmem h2
    refine ⟨?_, ?_, ?_, ?_, ?_, ?_, ?_⟩
    · show st.hp.allocCount =
        st.hp.freeCount + 1 + (st.hp.live.filter (fun e => e.1 ≠ a)).length
      omega
    · show ((st.hp.live.filter (fun e => e.1 ≠ a)).map Prod.fst).Nodup
      exact List.Nodup.sublist ((List.filter_sublist _).map Prod.fst) h2
    · intro e he
      exact h3 e (List.mem_filter.mp he).1
    · intro k c hc
      replace hc :
          ((st.bufs.set dst ⟨s.m_begin, s.m_size⟩).set src ⟨none, 0⟩)[k]? = some c := hc
      rcases set_cases hc with ⟨rfl, _, rfl⟩ | ⟨hks, hc'⟩
      · simp
      · rcases set_cases hc' with ⟨rfl, _, rfl⟩ | ⟨hkd, hc''⟩
        · exact h4 src s hsrc
        · exact h4 k c hc''
    · intro k c a' hc ha
      replace hc :
          ((st.bufs.set dst ⟨s.m_begin, s.m_size⟩).set src ⟨none, 0⟩)[k]? = some c := hc
      rcases set_cases hc with ⟨rfl, _, rfl⟩ | ⟨hks, hc'⟩
      · cases ha
      · rcases set_cases hc' with ⟨rfl, _, rfl⟩ | ⟨hkd, hc''⟩
        · obtain ⟨e1, he1, he1f, he1sz⟩ := h5 src s a' hsrc ha
          have hane : a' ≠ a := by
            rcases h6 dst src d s hds hd hsrc with hnone | hne
            · rw [hdm] at hnone
              cases hnone
            · intro hcontra
              apply hne
              rw [hdm, ha, hcontra]
          refine ⟨e1, List.mem_filter.mpr ⟨he1, ?_⟩, he1f, he1sz⟩
          simp only [decide_eq_true_eq]
          rw [he1f]
          exact hane
        · obtain ⟨e1, he1, he1f, he1sz⟩ := h5 k c a' hc'' ha
          have hane : a' ≠ a := by
            rcases h6 k dst c d (Ne.symm hkd) hc'' hd with hnone | hne
            · rw [ha] at hnone
              cases hnone
            · intro hcontra
              apply hne
              rw [ha, hdm, hcontra]
          refine ⟨e1, List.mem_filter.mpr ⟨he1, ?_⟩, he1f, he1sz⟩
          simp only [decide_eq_true_eq]
          rw [he1f]
          exact hane
    · intro k l bk bl hkl hbk hbl
      replace hbk :
          ((st.bufs.set dst ⟨s.m_begin, s.m_size⟩).set src ⟨none, 0⟩)[k]? = some bk := hbk
      replace hbl :
          ((st.bufs.set dst ⟨s.m_begin, s.m_size⟩).set src ⟨none, 0⟩)[l]? = some bl := hbl
      rcases set_cases hbk with ⟨rfl, _, rfl⟩ | ⟨hks, hbk'⟩
      · exact Or.inl rfl
      · rcases set_cases hbl with ⟨rfl, _, rfl⟩ | ⟨hls, hbl'⟩
        · rcases set_cases hbk' with ⟨rfl, _, rfl⟩ | ⟨hkd, hbk''⟩
          · rcases hmb : s.m_begin with _ | a1
            · exact Or.inl rfl
            · exact Or.inr (by simp)
          · rcases hmb : bk.m_begin with _ | a1
            · exact Or.inl rfl
            · exact Or.inr (by simp)
        · rcases set_cases hbk' with ⟨rfl, _, rfl⟩ | ⟨hkd, hbk''⟩
          · rcases set_cases hbl' with ⟨rfl, _, rfl⟩ | ⟨hld, hbl''⟩
            · exact absurd rfl hkl
            · exact h6 src l s bl hls hsrc hbl''
          · rcases set_cases hbl' with ⟨rfl, _, rfl⟩ | ⟨hld, hbl''⟩
            · exact h6 k src bk s (Ne.symm hks) hbk'' hsrc
            · exact h6 k l bk bl hkl hbk'' hbl''
    · intro e he
      have he' := (List.mem_filter.mp he).1
      have hefst : e.1 ≠ a := by
        have := (List.mem_filter.mp he).2
        simpa using this
      obtain ⟨j, bj, hj, hja⟩ := h7 e he'
      by_cases hjd : j = dst
      · subst hjd
        rw [hd] at hj
        cases hj
        rw [hdm] at hja
        injection hja with hae
        exact absurd hae.symm hefst
      · by_cases hjs : j = src
        · subst hjs
          rw [hsrc] at hj
          cases hj
          exact ⟨dst, ⟨s.m_begin, s.m_size⟩,
            set_get_ne (Ne.symm hds) (List.getElem?_set_eq_of_lt _ hdlen), hja⟩
        · exact ⟨j, bj,
            set_get_ne (fun h => hjs h.symm) (set_get_ne (fun h => hjd h.symm) hj),
            hja⟩

/-- `swap` preserves the invariant. -/
theorem swap_inv (p : platform) (st : machine) (i j : Nat) (hInv : Inv st) :
    Inv (mstep p st (.swapOp i j)) := by
  obtain ⟨h1, h2, h3, h4, h5, h6, h7⟩ := hInv
  rcases hbi : st.bufs[i]? with _ | bi
  · have hstep : mstep p st (.swapOp i j) = st := by simp [mstep, hbi]
    rw [hstep]
    exact ⟨h1, h2, h3, h4, h5, h6, h7⟩
  rcases hbj : st.bufs[j]? with _ | bj
  · have hstep : mstep p st (.swapOp i j) = st := by simp [mstep, hbi, hbj]
    rw [hstep]
    exact ⟨h1, h2, h3, h4, h5, h6, h7⟩
  have hilen : i < st.bufs.length := getElem?_lt_length hbi
  have hjlen : j < st.bufs.length := getElem?_lt_length hbj
  have hstep : mstep p st (.swapOp i j) =
      { st with bufs := (st.bufs.set i bj).set j bi } := by
    simp [mstep, hbi, hbj]
  rw [hstep]
  refine ⟨h1, h2, h3, ?_, ?_, ?_, ?_⟩
  · intro k c hc
    replace hc : ((st.bufs.set i bj).set j bi)[k]? = some c := hc
    rcases set_cases hc with ⟨hjk, _, hcb⟩ | ⟨hjk, hc'⟩
    · rw [hcb]
      exact h4 i bi hbi
    · rcases set_cases hc' with ⟨hik, _, hcb⟩ | ⟨hik, hc''⟩
      · rw [hcb]
        exact h4 j bj hbj
      · exact h4 k c hc''
  · intro k c a hc ha
    replace hc : ((st.bufs.set i bj).set j bi)[k]? = some c := hc
    rcases set_cases hc with ⟨hjk, _, hcb⟩ | ⟨hjk, hc'⟩
    · rw [hcb] at ha ⊢
      exact h5 i bi a hbi ha
    · rcases set_cases hc' with ⟨hik, _, hcb⟩ | ⟨hik, hc''⟩
      · rw [hcb] at ha ⊢
        exact h5 j bj a hbj ha
      · exact h5 k c a hc'' ha
  · intro k l bk bl hkl hbk hbl
    replace hbk : ((st.bufs.set i bj).set j bi)[k]? = some bk := hbk
    replace hbl : ((st.bufs.set i bj).set j bi)[l]? = some bl := hbl
    rcases set_cases hbk with ⟨hjk, _, hbkb⟩ | ⟨hjk, hbk'⟩
    · rcases set_cases hbl with ⟨hjl, _, hblb⟩ | ⟨hjl, hbl'⟩
      · exact absurd (by omega : k = l) hkl
      · rcases set_cases hbl' with ⟨hil, _, hblb⟩ | ⟨hil, hbl''⟩
        · rw [hbkb, hblb]
          exact h6 i j bi bj (by omega) hbi hbj
        · rw [hbkb]
          exact h6 i l bi bl hil hbi hbl''
    · rcases set_cases hbk' with ⟨hik, _, hbkb⟩ | ⟨hik, hbk''⟩
      · rcases set_cases hbl with ⟨hjl, _, hblb⟩ | ⟨hjl, hbl'⟩
        · rw [hbkb, hblb]
          exact h6 j i bj bi (by omega) hbj hbi
        · rcases set_cases hbl' with ⟨hil, _, hblb⟩ | ⟨hil, hbl''⟩
          · exact absurd (by omega : k = l) hkl
          · rw [hbkb]
            exact h6 j l bj bl hjl hbj hbl''
      · rcases set_cases hbl with ⟨hjl, _, hblb⟩ | ⟨hjl, hbl'⟩
        · rw [hblb]
          exact h6 k i bk bi (by omega) hbk'' hbi
        · rcases set_cases hbl' with ⟨hil, _, hblb⟩ | ⟨hil, hbl''⟩
          · rw [hblb]
            exact h6 k j bk bj (by omega) hbk'' hbj
          · exact h6 k l bk bl hkl hbk'' hbl''
  · intro e he
    obtain ⟨j0, bj0, hj0, hja⟩ := h7 e he
    by_cases hj0i : j0 = i
    · rw [hj0i, hbi] at hj0
      injection hj0 with hb0
      rw [← hb0] at hja
      refine ⟨j, bi, ?_, hja⟩
      exact List.getElem?_set_eq_of_lt bi (by rw [List.length_set]; exact hjlen)
    · by_cases hj0j : j0 = j
      · rw [hj0j, hbj] at hj0
        injection hj0 with hb0
        rw [← hb0] at hja
        by_cases hji : j = i
        · refine ⟨j, bi, ?_, ?_⟩
          · exact List.getElem?_set_eq_of_lt bi (by rw [List.length_set]; exact hjlen)
          · have hbij : some bi = some bj := by rw [← hbi, ← hji, hbj]
            injection hbij with h'
            rw [h']
            exact hja
        · refine ⟨i, bj, ?_, hja⟩
          exact set_get_ne hji (List.getElem?_set_eq_of_lt bj hilen)
      · exact ⟨j0, bj0,
          set_get_ne (fun h => hj0j h.symm) (set_get_ne (fun h => hj0i h.symm) hj0),
          hja⟩

/-- Destruction preserves the invariant. -/
theorem destroy_inv (p : platform) (st : machine) (i : Nat) (hInv : Inv st) :
    Inv (mstep p st (.destroy i)) := by
  obtain ⟨h1, h2, h3, h4, h5, h6, h7⟩ := hInv
  rcases hbi : st.bufs[i]? with _ | b
  · have hstep : mstep p st (.destroy i) = st := by simp [mstep, hbi]
    rw [hstep]
    exact ⟨h1, h2, h3, h4, h5, h6, h7⟩
  have hstep : mstep p st (.destroy i) =
      { hp := free_step st.hp b.m_begin, bufs := st.bufs.eraseIdx i } := by
    simp [mstep, hbi]
  rw [hstep]
  rcases hdm : b.m_begin with _ | a
  · refine ⟨h1, h2, h3, ?_, ?_, ?_, ?_⟩
    · intro k c hc
      replace hc : (st.bufs.eraseIdx i)[k]? = some c := hc
      rcases eraseIdx_cases hc with ⟨_, hc'⟩ | ⟨_, hc'⟩
      · exact h4 k c hc'
      · exact h4 (k + 1) c hc'
    · intro k c a hc ha
      replace hc : (st.bufs.eraseIdx i)[k]? = some c := hc
      rcases eraseIdx_cases hc with ⟨_, hc'⟩ | ⟨_, hc'⟩
      · exact h5 k c a hc' ha
      · exact h5 (k + 1) c a hc' ha
    · intro k l bk bl hkl hbk hbl
      replace hbk : (st.bufs.eraseIdx i)[k]? = some bk := hbk
      replace hbl : (st.bufs.eraseIdx i)[l]? = some bl := hbl
      rcases eraseIdx_cases hbk with ⟨hk1, hbk'⟩ | ⟨hk1, hbk'⟩ <;>
        rcases eraseIdx_cases hbl with ⟨hl1, hbl'⟩ | ⟨hl1, hbl'⟩
      · exact h6 k l bk bl hkl hbk' hbl'
      · exact h6 k (l + 1) bk bl (by omega) hbk' hbl'
      · exact h6 (k + 1) l bk bl (by omega) hbk' hbl'
      · exact h6 (k + 1) (l + 1) bk bl (by omega) hbk' hbl'
    · intro e he
      obtain ⟨j, bj, hj, hja⟩ := h7 e he
      have hji : j ≠ i := by
        intro hcontra
        subst hcontra
        rw [hbi] at hj
        cases hj
        rw [hdm] at hja
        cases hja
      exact ⟨if j < i then j else j - 1, bj, eraseIdx_get hji hj, hja⟩
  · obtain ⟨ea, hea_mem, hea_fst, _⟩ := h5 i b a hbi hdm
    have hmem : (a, ea.2) ∈ st.hp.live := by
      rw [← hea_fst]
      exact hea_mem
    have hlen := filter_fst_ne_length hmem h2
    refine ⟨?_, ?_, ?_, ?_, ?_, ?_, ?_⟩
    · show st.hp.allocCount =
        st.hp.freeCount + 1 + (st.hp.live.filter (fun e => e.1 ≠ a)).length
      omega
    · show ((st.hp.live.filter (fun e => e.1 ≠ a)).map Prod.fst).Nodup
      exact List.Nodup.sublist ((List.filter_sublist _).map Prod.fst) h2
    · intro e he
      exact h3 e (List.mem_filter.mp he).1
    · intro k c hc
      replace hc : (st.bufs.eraseIdx i)[k]? = some c := hc
      rcases eraseIdx_cases hc with ⟨_, hc'⟩ | ⟨_, hc'⟩
      · exact h4 k c hc'
      · exact h4 (k + 1) c hc'
    · intro k c a' hc ha
      replace hc : (st.bufs.eraseIdx i)[k]? = some c := hc
      have key : ∀ k', st.bufs[k']? = some c → k' ≠ i →
          ∃ e ∈ (free_step st.hp (some a)).live, e.1 = a' ∧ c.m_size ≤ e.2 := by
        intro k' hc' hk'i
        obtain ⟨e1, he1, he1f, he1sz⟩ := h5 k' c a' hc' ha
        have hane : a' ≠ a := by
          rcases h6 k' i c b hk'i hc' hbi with hnone | hne
          · rw [ha] at hnone
            cases hnone
          · intro hcontra
            apply hne
            rw [ha, hdm, hcontra]
        refine ⟨e1, List.mem_filter.mpr ⟨he1, ?_⟩, he1f, he1sz⟩
        simp only [decide_eq_true_eq]
        rw [he1f]
        exact hane
      rcases eraseIdx_cases hc with ⟨hk1, hc'⟩ | ⟨hk1, hc'⟩
      · exact key k hc' (by omega)
      · exact key (k + 1) hc' (by omega)
    · intro k l bk bl hkl hbk hbl
      replace hbk : (st.bufs.eraseIdx i)[k]? = some bk := hbk
      replace hbl : (st.bufs.eraseIdx i)[l]? = some bl := hbl
      rcases eraseIdx_cases hbk with ⟨hk1, hbk'⟩ | ⟨hk1, hbk'⟩ <;>
        rcases eraseIdx_cases hbl with ⟨hl1, hbl'⟩ | ⟨hl1, hbl'⟩
      · exact h6 k l bk bl hkl hbk' hbl'
      · exact h6 k (l + 1) bk bl (by omega) hbk' hbl'
      · exact h6 (k + 1) l bk bl (by omega) hbk' hbl'
      · exact h6 (k + 1) (l + 1) bk bl (by omega) hbk' hbl'
    · intro e he
      have he' := (List.mem_filter.mp he).1
      have hefst : e.1 ≠ a := by
        have := (List.mem_filter.mp he).2
        simpa using this
      obtain ⟨j, bj, hj, hja⟩ := h7 e he'
      have hji : j ≠ i := by
        intro hcontra
        subst hcontra
        rw [hbi] at hj
        cases hj
        rw [hdm] at hja
        injection hja with hae
        exact absurd hae.symm hefst
      exact ⟨if j < i then j else j - 1, bj, eraseIdx_get hji hj, hja⟩

/-- Every operation preserves the invariant. -/
theorem mstep_inv (p : platform) (hcons : p.consistent) (st : machine)
    (o : op) (hwf : o.wf) (hInv : Inv st) : Inv (mstep p st o) := by
  cases o with
  | alloc size => exact alloc_step_inv p hcons st size hwf hInv
  | allocFrom size ini => exact alloc_step_inv p hcons st size hwf.1 hInv
  | moveCtor i => exact moveCtor_inv p st i hInv
  | moveAssign dst src => exact moveAssign_inv p st dst src hInv
  | swapOp i j => exact swap_inv p st i j hInv
  | destroy i => exact destroy_inv p st i hInv

/-- Any sequence of well-formed operations keeps the invariant. -/
theorem mrun_inv (p : platform) (hcons : p.consistent) (ops : List op)
    (hwf : ∀ o ∈ ops, o.wf) (st : machine) (hInv : Inv st) :
    Inv (mrun p st ops) := by
  induction ops generalizing st with
  | nil => exact hInv
  | cons o ops ih =>
    exact ih (fun o' ho' => hwf o' (List.mem_cons_of_mem o ho'))
      (mstep p st o) (mstep_inv p hcons st o (hwf o (List.mem_cons_self o ops)) hInv)

/-! ### The claims -/

/-- A small concrete state used to instantiate the machine theorems: two
buffers owning the two live blocks. -/
def sample_machine : machine :=
  ⟨⟨3, [(1, 8), (2, 16)], 2, 0⟩, [⟨some 1, 8⟩, ⟨some 2, 16⟩]⟩

/-- C1: after move-construction from `bufs[i] = b` the new object carries
`b`'s pointer and size and `bufs[i]` is left empty (`data = null`,
`capacity = 0`, `isEmpty`); after move-assignment `bufs[dst] = move(bufs[src])`
between distinct objects, `bufs[dst]` carries `bufs[src]`'s former pointer
and size and `bufs[src]` is left empty. -/
theorem c1_move_transfer (p : platform) (st : machine) (i dst src : Nat)
    (b d s : buffer)
    (hi : st.bufs[i]? = some b) (hb : b.m_begin ≠ none)
    (hdst : st.bufs[dst]? = some d) (hsrc : st.bufs[src]? = some s)
    (hs : s.m_begin ≠ none) (hne : dst ≠ src) :
    ((mstep p st (.moveCtor i)).bufs[st.bufs.length]? =
        some ⟨b.m_begin, b.m_size⟩ ∧
      (mstep p st (.moveCtor i)).bufs[i]? = some ⟨none, 0⟩) ∧
    ((mstep p st (.moveAssign dst src)).bufs[dst]? =
        some ⟨s.m_begin, s.m_size⟩ ∧
      (mstep p st (.moveAssign dst src)).bufs[src]? = some ⟨none, 0⟩) ∧
    (⟨none, 0⟩ : buffer).empty = true ∧ (⟨none, 0⟩ : buffer).m_begin = none := by
  have hilen : i < st.bufs.length := getElem?_lt_length hi
  have hdlen : dst < st.bufs.length := getElem?_lt_length hdst
  have hslen : src < st.bufs.length := getElem?_lt_length hsrc
  have hstep1 : mstep p st (.moveCtor i) =
      { st with bufs :=
          (st.bufs.set i ⟨none, 0⟩) ++ [⟨b.m_begin, b.m_size⟩] } := by
    simp [mstep, hi]
  have hstep2 : mstep p st (.moveAssign dst src) =
      { hp := free_step st.hp d.m_begin
      , bufs := (st.bufs.set dst ⟨s.m_begin, s.m_size⟩).set src ⟨none, 0⟩ } := by
    simp [mstep, hne, hdst, hsrc]
  refine ⟨⟨?_, ?_⟩, ⟨?_, ?_⟩, rfl, rfl⟩
  · rw [hstep1]
    simp only [getElem?_snoc, List.length_set]
    simp
  · rw [hstep1]
    exact snoc_get_lt (List.getElem?_set_eq_of_lt _ hilen)
  · rw [hstep2]
    exact set_get_ne (Ne.symm hne) (List.getElem?_set_eq_of_lt _ hdlen)
  · rw [hstep2]
    exact List.getElem?_set_eq_of_lt _ (by rw [List.length_set]; exact hslen)

/-- Witness for C1 on a concrete two-buffer machine. -/
theorem c1_move_transfer_witness :
    ((mstep fallbackPlat sample_machine (.moveCtor 0)).bufs[2]? =
        some ⟨some 1, 8⟩ ∧
      (mstep fallbackPlat sample_machine (.moveCtor 0)).bufs[0]? =
        some ⟨none, 0⟩) ∧
    ((mstep fallbackPlat sample_machine (.moveAssign 0 1)).bufs[0]? =
        some ⟨some 2, 16⟩ ∧
      (mstep fallbackPlat sample_machine (.moveAssign 0 1)).bufs[1]? =
        some ⟨none, 0⟩) ∧
    (⟨none, 0⟩ : buffer).empty = true ∧ (⟨none, 0⟩ : buffer).m_begin = none :=
  c1_move_transfer fallbackPlat sample_machine 0 0 1
    ⟨some 1, 8⟩ ⟨some 1, 8⟩ ⟨some 2, 16⟩ rfl (by decide) rfl rfl (by decide)
    (by decide)

/-- C2: for any positive request below the `INT32_MAX` precondition and any
consistent allocator report, the constructed buffer's `size()` is at least
`round_up8(requestedSize)`, and for some allocator it is strictly larger. -/
theorem c2_size_ge_rounded (p : platform) (a size : Nat) (hpos : 0 < size)
    (hpre : buffer.ctor_pre size) (hcons : p.consistent) :
    (∃ b, buffer_ctor p (some a) size = .ok b ∧ round_up8 size ≤ b.size) ∧
    (∃ q : platform, q.consistent ∧
      ∃ b, buffer_ctor q (some a) size = .ok b ∧ round_up8 size < b.size) := by
  constructor
  · refine ⟨buffer.mk_alloc p a size, ?_, ?_⟩
    · simp [buffer_ctor, hpos.ne']
    · show round_up8 size ≤
        (if p.introspect then p.usable (round_up8 size) else round_up8 size)
      split
      · exact hcons _
      · exact le_refl _
  · refine ⟨⟨fun s => s + 8, true⟩, fun s => Nat.le_add_right s 8,
      buffer.mk_alloc ⟨fun s => s + 8, true⟩ a size, ?_, ?_⟩
    · simp [buffer_ctor, hpos.ne']
    · show round_up8 size < round_up8 size + 8
      omega

/-- Witness for C2 at request 9 on the fallback platform. -/
theorem c2_size_ge_rounded_witness :
    (∃ b, buffer_ctor fallbackPlat (some 1) 9 = .ok b ∧ round_up8 9 ≤ b.size) ∧
    (∃ q : platform, q.consistent ∧
      ∃ b, buffer_ctor q (some 1) 9 = .ok b ∧ round_up8 9 < b.size) :=
  c2_size_ge_rounded fallbackPlat 1 9 (by decide) (by decide) (fun s => le_refl s)

/-- C3: under the asserted precondition `initialize.size() <= size`, the
initializing constructor copies the initializer into the block's start (the
first `initialize.size()` bytes of the block equal the initializer) and the
buffer's `size()` is at least `round_up8(requestedSize)`. -/
theorem c3_copy_initializer (p : platform) (a size : Nat) (ini : List Nat)
    (hpre : buffer.init_ctor_pre size ini) (hctor : buffer.ctor_pre size)
    (hcons : p.consistent) :
    ∃ b block, buffer_ctor_init p (some a) size ini = .ok (b, block) ∧
      block.take ini.length = ini.map some ∧
      round_up8 size ≤ b.size := by
  by_cases hs : size = 0
  · subst hs
    have hini : ini = [] := List.eq_nil_of_length_eq_zero (Nat.le_zero.mp hpre)
    subst hini
    exact ⟨⟨none, 0⟩, fresh_block (block_cap p 0), rfl, rfl, by decide⟩
  · have hpos : 0 < size := Nat.pos_of_ne_zero hs
    have hmin : min ini.length size = ini.length := Nat.min_eq_left hpre
    by_cases hil : 0 < ini.length
    · refine ⟨buffer.mk_alloc p a size,
        memcpy_into (fresh_block (block_cap p size)) ini (min ini.length size),
        ?_, ?_, ?_⟩
      · simp [buffer_ctor_init, buffer_ctor, hs, hil]
      · show (memcpy_into (fresh_block (block_cap p size)) ini
          (min ini.length size)).take ini.length = ini.map some
        rw [hmin]
        unfold memcpy_into
        rw [List.take_length]
        exact List.take_left' (by simp)
      · show round_up8 size ≤
          (if p.introspect then p.usable (round_up8 size) else round_up8 size)
        split
        · exact hcons _
        · exact le_refl _
    · have hini : ini = [] := List.eq_nil_of_length_eq_zero (by omega)
      subst hini
      refine ⟨buffer.mk_alloc p a size, fresh_block (block_cap p size),
        ?_, rfl, ?_⟩
      · simp [buffer_ctor_init, buffer_ctor, hs]
      · show round_up8 size ≤
          (if p.introspect then p.usable (round_up8 size) else round_up8 size)
        split
        · exact hcons _
        · exact le_refl _

/-- Witness for C3: the spec's own example, `allocateFrom(16, [bytes 0..9])`. -/
theorem c3_copy_initializer_witness :
    ∃ b block,
      buffer_ctor_init fallbackPlat (some 1) 16 [0, 1, 2, 3, 4, 5, 6, 7, 8, 9] =
        .ok (b, block) ∧
      block.take 10 = [0, 1, 2, 3, 4, 5, 6, 7, 8, 9].map some ∧
      round_up8 16 ≤ b.size :=
  c3_copy_initializer fallbackPlat 1 16 [0, 1, 2, 3, 4, 5, 6, 7, 8, 9]
    (by decide) (by decide) (fun s => le_refl s)

/-- C4: move-assignment into a distinct non-empty destination frees exactly
one allocation — the destination's, which is gone from the live set — while
the allocation count is untouched; and over any well-formed operation
sequence that destroys every buffer, `malloc` and `free` counts balance. -/
theorem c4_single_free (p : platform) :
    (∀ (st : machine) (dst src : Nat) (d s : buffer) (a cap : Nat),
      dst ≠ src →
      st.bufs[dst]? = some d → st.bufs[src]? = some s →
      d.m_begin = some a → (a, cap) ∈ st.hp.live →
      (st.hp.live.map Prod.fst).Nodup →
      (mstep p st (.moveAssign dst src)).hp.freeCount = st.hp.freeCount + 1 ∧
      (mstep p st (.moveAssign dst src)).hp.allocCount = st.hp.allocCount ∧
      (mstep p st (.moveAssign dst src)).hp.live.length + 1 =
        st.hp.live.length ∧
      (∀ e ∈ (mstep p st (.moveAssign dst src)).hp.live, e.1 ≠ a)) ∧
    (∀ ops : List op, p.consistent → (∀ o ∈ ops, o.wf) →
      (mrun p machine.init ops).bufs = [] →
      (mrun p machine.init ops).hp.allocCount =
        (mrun p machine.init ops).hp.freeCount) := by
  constructor
  · intro st dst src d s a cap hne hd hs hdm hmem hnd
    have hstep : mstep p st (.moveAssign dst src) =
        { hp := free_step st.hp d.m_begin
        , bufs := (st.bufs.set dst ⟨s.m_begin, s.m_size⟩).set src ⟨none, 0⟩ } := by
      simp [mstep, hne, hd, hs]
    rw [hstep, hdm]
    refine ⟨rfl, rfl, ?_, ?_⟩
    · exact filter_fst_ne_length hmem hnd
    · intro e he
      have := (List.mem_filter.mp he).2
      simpa using this
  · intro ops hcons hwf hnil
    obtain ⟨h1, _, _, _, _, _, h7⟩ := mrun_inv p hcons ops hwf machine.init Inv_init
    have hlive : (mrun p machine.init ops).hp.live = [] := by
      rcases hl : (mrun p machine.init ops).hp.live with _ | ⟨e, rest⟩
      · rfl
      · obtain ⟨j, bj, hj, _⟩ := h7 e (by rw [hl]; exact List.mem_cons_self _ _)
        rw [hnil] at hj
        simp at hj
    rw [hlive] at h1
    simpa using h1

/-- Witness for C4: one concrete move-assignment and one concrete
allocate-then-destroy run. -/
theorem c4_single_free_witness :
    ((mstep fallbackPlat sample_machine (.moveAssign 0 1)).hp.freeCount =
        sample_machine.hp.freeCount + 1 ∧
      (mstep fallbackPlat sample_machine (.moveAssign 0 1)).hp.allocCount =
        sample_machine.hp.allocCount ∧
      (mstep fallbackPlat sample_machine (.moveAssign 0 1)).hp.live.length + 1 =
        sample_machine.hp.live.length ∧
      (∀ e ∈ (mstep fallbackPlat sample_machine (.moveAssign 0 1)).hp.live,
        e.1 ≠ 1)) ∧
    (mrun fallbackPlat machine.init [op.alloc 8, op.destroy 0]).hp.allocCount =
      (mrun fallbackPlat machine.init [op.alloc 8, op.destroy 0]).hp.freeCount :=
  ⟨(c4_single_free fallbackPlat).1 sample_machine 0 1 ⟨some 1, 8⟩ ⟨some 2, 16⟩ 1 8
      (by decide) rfl rfl rfl (by decide) (by decide),
   (c4_single_free fallbackPlat).2 [op.alloc 8, op.destroy 0] (fun s => le_refl s)
      (by
        intro o ho
        rcases List.mem_cons.mp ho with rfl | ho'
        · exact (by decide : (8 : Nat) < int32_max)
        · rcases List.mem_cons.mp ho' with rfl | ho''
          · trivial
          · cases ho'')
      (by decide)⟩

/-- C5: self-move-assignment (`&b == this`) is a no-op: the whole machine
state — pointer, capacity and heap, so in particular the free counter — is
unchanged. -/
theorem c5_self_move_noop (p : platform) (st : machine) (i : Nat) :
    mstep p st (.moveAssign i i) = st ∧
    (mstep p st (.moveAssign i i)).hp.freeCount = st.hp.freeCount := by
  have h : mstep p st (.moveAssign i i) = st := by simp [mstep]
  exact ⟨h, by rw [h]⟩

/-- C6 (amended): for a buffer built under the constructor precondition
whose resulting size `N` is itself below `INT32_MAX`, the `data()` view
satisfies `end >= begin` with `end - begin` in signed range, `left()`
returns `N`, index `N - 1` (for `N ≥ 1`) passes the bounds assertion and
index `N` violates it.  The extra bound on `N` is needed: the constructor
precondition alone admits requests that round up to `2^31`. -/
theorem c6_interval_bounds (p : platform) (a size : Nat) (b : buffer)
    (hpre : buffer.ctor_pre size)
    (hctor : buffer_ctor p (some a) size = .ok b)
    (hN : b.size < int32_max) :
    (b.data).left_pre ∧
    (b.data).left = b.size ∧
    (0 < b.size → (b.data).index_pre (b.size - 1)) ∧
    ¬ (b.data).index_pre b.size := by
  have hN' : b.m_size < int32_max := hN
  refine ⟨⟨?_, ?_⟩, ?_, ?_, ?_⟩
  · show addr b.m_begin ≤ addr b.m_begin + b.m_size
    omega
  · show addr b.m_begin + b.m_size - addr b.m_begin < int32_max
    omega
  · show addr b.m_begin + b.m_size - addr b.m_begin = b.m_size
    omega
  · intro h0
    have h0' : 0 < b.m_size := h0
    show addr b.m_begin + (b.m_size - 1) < addr b.m_begin + b.m_size
    omega
  · show ¬ (addr b.m_begin + b.m_size < addr b.m_begin + b.m_size)
    omega

/-- Witness for C6 (amended) at request 9, which rounds up to size 16. -/
theorem c6_interval_bounds_witness :
    (buffer.data ⟨some 1, 16⟩).left_pre ∧
    (buffer.data ⟨some 1, 16⟩).left = (⟨some 1, 16⟩ : buffer).size ∧
    (0 < (⟨some 1, 16⟩ : buffer).size →
      (buffer.data ⟨some 1, 16⟩).index_pre ((⟨some 1, 16⟩ : buffer).size - 1)) ∧
    ¬ (buffer.data ⟨some 1, 16⟩).index_pre (⟨some 1, 16⟩ : buffer).size :=
  c6_interval_bounds fallbackPlat 1 9 ⟨some 1, 16⟩ (by decide) (by rfl) (by decide)

/-- C6 as frozen is false: request `2147483646` passes the constructor
precondition (`size < INT32_MAX`), but it rounds up to `2147483648 = 2^31`,
so `interval::left()`'s assertion `end - begin < INT_MAX` is violated on the
resulting `data()` view. -/
theorem c6_counterexample :
    buffer.ctor_pre 2147483646 ∧
    buffer_ctor fallbackPlat (some 1) 2147483646 = .ok ⟨some 1, 2147483648⟩ ∧
    ¬ (buffer.data ⟨some 1, 2147483648⟩).left_pre := by
  refine ⟨by decide, by rfl, ?_⟩
  intro ⟨_, h⟩
  revert h
  decide

/-- C7: in every machine state reachable by well-formed operations, each
buffer is null exactly when its capacity is zero, a non-null buffer points
at a live allocation of at least its capacity, and no two distinct buffers
own the same allocation. -/
theorem c7_ownership_invariant (p : platform) (ops : List op)
    (hcons : p.consistent) (hwf : ∀ o ∈ ops, o.wf) :
    (∀ (i : Nat) (b : buffer),
      (mrun p machine.init ops).bufs[i]? = some b →
      (b.m_begin = none ↔ b.m_size = 0)) ∧
    (∀ (i : Nat) (b : buffer) (a : Nat),
      (mrun p machine.init ops).bufs[i]? = some b → b.m_begin = some a →
      ∃ e ∈ (mrun p machine.init ops).hp.live, e.1 = a ∧ b.m_size ≤ e.2) ∧
    (∀ (i j : Nat) (bi bj : buffer), i ≠ j →
      (mrun p machine.init ops).bufs[i]? = some bi →
      (mrun p machine.init ops).bufs[j]? = some bj →
      bi.m_begin = none ∨ bi.m_begin ≠ bj.m_begin) := by
  obtain ⟨_, _, _, h4, h5, h6, _⟩ := mrun_inv p hcons ops hwf machine.init Inv_init
  exact ⟨h4, h5, h6⟩

/-- Witness for C7 on a concrete run: allocate, then move-construct from
the new buffer. -/
theorem c7_ownership_invariant_witness :
    (∀ (i : Nat) (b : buffer),
      (mrun fallbackPlat machine.init [op.alloc 8, op.moveCtor 0]).bufs[i]? =
        some b → (b.m_begin = none ↔ b.m_size = 0)) ∧
    (∀ (i : Nat) (b : buffer) (a : Nat),
      (mrun fallbackPlat machine.init [op.alloc 8, op.moveCtor 0]).bufs[i]? =
        some b → b.m_begin = some a →
      ∃ e ∈ (mrun fallbackPlat machine.init [op.alloc 8, op.moveCtor 0]).hp.live,
        e.1 = a ∧ b.m_size ≤ e.2) ∧
    (∀ (i j : Nat) (bi bj : buffer), i ≠ j →
      (mrun fallbackPlat machine.init [op.alloc 8, op.moveCtor 0]).bufs[i]? =
        some bi →
      (mrun fallbackPlat machine.init [op.alloc 8, op.moveCtor 0]).bufs[j]? =
        some bj →
      bi.m_begin = none ∨ bi.m_begin ≠ bj.m_begin) :=
  c7_ownership_invariant fallbackPlat [op.alloc 8, op.moveCtor 0]
    (fun s => le_refl s)
    (by
      intro o ho
      rcases List.mem_cons.mp ho with rfl | ho'
      · exact (by decide : (8 : Nat) < int32_max)
      · rcases List.mem_cons.mp ho' with rfl | ho''
        · trivial
        · cases ho'')

/-- C8: with a positive request under the precondition, a null `malloc`
return makes the constructor fail with `bad_alloc` (no buffer is returned at
all), and every successfully constructed buffer is fully valid: non-null,
positive capacity, and satisfying the null-iff-zero invariant. -/
theorem c8_alloc_failure (p : platform) (size : Nat) (hpos : 0 < size)
    (hpre : buffer.ctor_pre size) (hcons : p.consistent) :
    buffer_ctor p none size = .error .bad_alloc ∧
    (∀ (mret : Option Nat) (b : buffer), buffer_ctor p mret size = .ok b →
      b.m_begin ≠ none ∧ 0 < b.size ∧ (b.m_begin = none ↔ b.size = 0)) := by
  constructor
  · simp [buffer_ctor, hpos.ne']
  · intro mret b hb
    rcases mret with _ | a
    · simp [buffer_ctor, hpos.ne'] at hb
    · simp [buffer_ctor, hpos.ne'] at hb
      subst hb
      have hr : 0 < round_up8 size :=
        lt_of_lt_of_le hpos (round_up8_ge size (ctor_pre_no_wrap hpre))
      have hcap : 0 < (buffer.mk_alloc p a size).size := by
        show 0 <
          (if p.introspect then p.usable (round_up8 size) else round_up8 size)
        split
        · exact lt_of_lt_of_le hr (hcons _)
        · exact hr
      refine ⟨by simp [buffer.mk_alloc], hcap, ?_, ?_⟩
      · intro hc
        simp [buffer.mk_alloc] at hc
      · intro hc
        exact absurd hc hcap.ne'

/-- Witness for C8 at request 9 on the fallback platform. -/
theorem c8_alloc_failure_witness :
    buffer_ctor fallbackPlat none 9 = .error .bad_alloc ∧
    (∀ (mret : Option Nat) (b : buffer),
      buffer_ctor fallbackPlat mret 9 = .ok b →
      b.m_begin ≠ none ∧ 0 < b.size ∧ (b.m_begin = none ↔ b.size = 0)) :=
  c8_alloc_failure fallbackPlat 9 (by decide) (by decide) (fun s => le_refl s)

/-- C9: `allocate(0)` never calls `malloc` (whatever the allocator would
answer, and leaving the heap untouched on the machine) and yields the empty
buffer: `size() == 0`, `isEmpty()`, and every index fails the bounds
precondition. -/
theorem c9_allocate_zero (p : platform) (mret : Option Nat) (st : machine) :
    buffer_ctor p mret 0 = .ok ⟨none, 0⟩ ∧
    (⟨none, 0⟩ : buffer).size = 0 ∧
    (⟨none, 0⟩ : buffer).empty = true ∧
    (∀ i : Nat, ¬ (⟨none, 0⟩ : buffer).index_pre i) ∧
    (alloc_step p st 0).hp = st.hp := by
  exact ⟨rfl, rfl, rfl, fun i => Nat.not_lt_zero i, rfl⟩

/-- C10 (implicit): on the portable fallback platform (no usable-size
introspection), the constructed size is exactly `(size + 7) & ~7`, hence
always a multiple of 8. -/
theorem c10_fallback_exact (p : platform) (a size : Nat) (hpos : 0 < size)
    (hpre : buffer.ctor_pre size) (hfb : p.introspect = false) :
    ∃ b, buffer_ctor p (some a) size = .ok b ∧
      b.size = round_up8 size ∧ round_up8 size % 8 = 0 := by
  refine ⟨buffer.mk_alloc p a size, by simp [buffer_ctor, hpos.ne'], ?_, ?_⟩
  · show (if p.introspect then p.usable (round_up8 size) else round_up8 size) =
      round_up8 size
    rw [hfb]
    simp
  · obtain ⟨k, hk⟩ := round_up8_dvd size (ctor_pre_no_wrap hpre)
    rw [hk]
    exact Nat.mul_mod_right 8 k

/-- Witness for C10 at request 9 (exact size 16). -/
theorem c10_fallback_exact_witness :
    ∃ b, buffer_ctor fallbackPlat (some 1) 9 = .ok b ∧
      b.size = round_up8 9 ∧ round_up8 9 % 8 = 0 :=
  c10_fallback_exact fallbackPlat 1 9 (by decide) (by decide) rfl

end LibtorrentBuffer
